import Mathlib

/-!
Verification development for `cupyx/scipy/linalg/_matfuncs.py`.

The module has two entry points: `khatri_rao` (column-wise Kronecker
product) and `expm` (matrix exponential via a [13/13] Pade approximant
with scaling and squaring).

Modelling conventions:
* array entries are rationals (`ℚ`), an exact idealization of the
  float64 arithmetic of the source; `math.exp` is modelled by an
  arbitrary scalar function parameter `E : ℚ → ℚ` since the
  transcendental `exp` has no exact counterpart on `ℚ` (all structural
  claims hold for every `E`);
* a runtime array of dynamic 2-D shape is a dependent triple
  `⟨rows, cols, matrix⟩`; elementwise binary operations implement the
  broadcasting rule of the substrate (dimensions are compatible when
  they are equal or one of them is `1`), and shape failures are
  `Except` errors, mirroring raised exceptions;
* the spec's abstract error taxonomy is the inductive `MErr`:
  `DimensionError` covers shape-contract violations (the `ValueError`
  of the source and the assertion of `_util._assert_2d`), and
  `SingularMatrixError` the singular linear solve.
-/

namespace Matfuncs

/-- Statically shaped matrix of rationals. -/
abbrev Mat (n k : ℕ) := Matrix (Fin n) (Fin k) ℚ

/-- Dynamically shaped 2-D array: rows, columns, entries. -/
abbrev DMat := (n : ℕ) × (k : ℕ) × Mat n k

/-- Error taxonomy of the spec: shape-contract violations and the
singular linear solve. -/
inductive MErr where
  | DimensionError : String → MErr
  | SingularMatrixError : MErr
deriving DecidableEq

/-- Entry of a matrix at dynamic (natural-number) indices; out-of-range
reads never occur on the paths the code takes, the default `0` is a
total-function artifact. -/
def getE {n k : ℕ} (M : Mat n k) (i j : ℕ) : ℚ :=
  if h : i < n ∧ j < k then M ⟨i, h.1⟩ ⟨j, h.2⟩ else 0

/-- Broadcast of one axis: dimensions are compatible when equal or when
one of them is `1`, the result being the larger one. -/
def bdim (p q : ℕ) : Option ℕ :=
  if p = q then some p else if p = 1 then some q else if q = 1 then some p else none

/-- Index into an axis of extent `p` from a broadcast result index `j`:
a length-1 axis is read at `0`. -/
def bidx (p j : ℕ) : ℕ := if p = 1 then 0 else j

/-- Elementwise binary operation on two dynamic 2-D arrays with
broadcasting; incompatible shapes raise. -/
def bop (f : ℚ → ℚ → ℚ) (x y : DMat) : Except MErr DMat :=
  match bdim x.1 y.1, bdim x.2.1 y.2.1 with
  | some r, some c =>
      .ok ⟨r, c, Matrix.of fun i j =>
        f (getE x.2.2 (bidx x.1 i.1) (bidx x.2.1 j.1))
          (getE y.2.2 (bidx y.1 i.1) (bidx y.2.1 j.1))⟩
  | _, _ => .error (.DimensionError "operands could not be broadcast together")

/-- Matrix product of dynamic arrays (`@` of the source); inner
dimensions must agree. -/
def matmulD (x y : DMat) : Except MErr DMat :=
  if h : x.2.1 = y.1 then
    .ok ⟨x.1, y.2.1, Matrix.of fun i j =>
      ∑ l : Fin x.2.1, x.2.2 i l * y.2.2 (Fin.cast h l) j⟩
  else .error (.DimensionError "matmul: dimension mismatch")

/-- Scalar times dynamic array (`c * A` of the source; never fails). -/
def smulDM (c : ℚ) (d : DMat) : DMat := ⟨d.1, d.2.1, c • d.2.2⟩

/-- Elementwise negation (`-u` of the source). -/
def negD (d : DMat) : DMat := ⟨d.1, d.2.1, -d.2.2⟩

/-- Identity matrix as a dynamic array (`cupy.eye(n)`). -/
def eyeD (n : ℕ) : DMat := ⟨n, n, 1⟩

/-- Sum of the main diagonal, `cupy.diag(a).sum()`: the main diagonal
of an `n×k` array has length `min n k`. -/
def diagSumD (d : DMat) : ℚ :=
  ∑ i : Fin (min d.1 d.2.1), getE d.2.2 i.1 i.1

/-- Absolute column sum of one column. -/
def colAbs {n k : ℕ} (M : Mat n k) (j : Fin k) : ℚ := ∑ i, |M i j|

/-- Matrix 1-norm, `cupy.linalg.norm(A, ord=1)`: maximum absolute
column sum. -/
def norm1 {n k : ℕ} (M : Mat n k) : ℚ :=
  ((List.finRange k).map (colAbs M)).foldr max 0

/-- 1-norm of a dynamic array. -/
def norm1D (d : DMat) : ℚ := norm1 d.2.2

section KhatriRao

/-- Row of the first factor addressed by a flattened row index
(row-major reshape of an `n × m × k` cube to `(n*m) × k`). -/
def divIdx {n m : ℕ} (i : Fin (n * m)) : Fin n :=
  ⟨i.1 / m, by
    rcases Nat.eq_zero_or_pos m with h | h
    · exact absurd i.2 (by simp [h])
    · exact (Nat.div_lt_iff_lt_mul h).2 i.2⟩

/-- Row of the second factor addressed by a flattened row index. -/
def modIdx {n m : ℕ} (i : Fin (n * m)) : Fin m :=
  ⟨i.1 % m, Nat.mod_lt _ (by
    rcases Nat.eq_zero_or_pos m with h | h
    · exact absurd i.2 (by simp [h])
    · exact h)⟩

/-- Flattened (row-major) index `i*m + l` of the pair `(i, l)`. -/
def flatIdx {n m : ℕ} (i : Fin n) (l : Fin m) : Fin (n * m) :=
  ⟨i.1 * m + l.1, by
    calc i.1 * m + l.1 < i.1 * m + m := Nat.add_lt_add_left l.2 _
    _ = (i.1 + 1) * m := (Nat.succ_mul _ _).symm
    _ ≤ n * m := Nat.mul_le_mul_right m i.2⟩

/-- Broadcast cube `a[:, None, :] * b[None, :, :]` of the source:
entry `(i, l, j)` is `a i j * b l j`. -/
def krCube {n m k : ℕ} (a : Mat n k) (c : Mat m k) :
    Fin n → Fin m → Fin k → ℚ := fun i l j => a i j * c l j

/-- Reshape of the cube to `(n*m, k)`, row-major: the value of
`khatri_rao` on conforming 2-D inputs. -/
def krMat {n m k : ℕ} (a : Mat n k) (c : Mat m k) : Mat (n * m) k :=
  Matrix.of fun i j => krCube a c (divIdx i) (modIdx i) j

/-- Message of the column-count check of the source. -/
def colMismatchMsg : String :=
  "The number of columns for both arrays should be equal."

/-- Modelled from the spec: `_util._assert_2d` (from
`cupy.linalg._util`, not included under `src/`) raises a dimension
error when its argument is not 2-D; the spec files this under
`DimensionError`. -/
def assert2dMsg : String := "array must be two-dimensional"

/-- A runtime argument to `khatri_rao`: a genuine 2-D array, or an
array of some other rank (whose data is irrelevant because the rank
assertion fires before it is read). -/
inductive PyArr where
  | twoD : DMat → PyArr
  | otherD : ℕ → PyArr

/-- The `khatri_rao` routine: assert both inputs 2-D, check equal
column counts, then broadcast-multiply and reshape. -/
def khatri_rao (x y : PyArr) : Except MErr DMat :=
  match x with
  | .otherD _ => .error (.DimensionError assert2dMsg)
  | .twoD ⟨n, k, a⟩ =>
    match y with
    | .otherD _ => .error (.DimensionError assert2dMsg)
    | .twoD ⟨m, q, c⟩ =>
      if h : k = q then
        .ok ⟨n * m, k, krMat a (Matrix.of fun i j => c i (Fin.cast h j))⟩
      else .error (.DimensionError colMismatchMsg)

end KhatriRao

section Expm

/-- Coefficient table of the [13/13] Pade approximant (the module-level
list `b` of the source; every entry is an exact integer float). -/
def b : List ℚ :=
  [64764752532480000, 32382376266240000, 7771770303897600,
   1187353796428800, 129060195264000, 10559470521600,
   670442572800, 33522128640, 1323241920, 40840800,
   960960, 16380, 182, 1]

/-- Entry `b[i]` of the coefficient table. -/
def bq (i : ℕ) : ℚ := b.getD i 0

/-- Threshold `th13 = 5.37` of the source. -/
def th13 : ℚ := 537 / 100

/-- Scale exponent from the 1-norm of the shifted matrix:
`s = ceil(log2(nrmA / th13)) + 1` when `nrmA > th13`, else `s = 1`.
`Int.clog 2 q` is the ceiling of the base-2 logarithm of `q`, the exact
counterpart of `int(math.ceil(math.log2(...)))`. -/
def sOf (nrm : ℚ) : ℤ :=
  if th13 < nrm then Int.clog 2 (nrm / th13) + 1 else 1

/-- Elementwise division by `2 ^ s` (`A /= 2**s` of the source). -/
def divPow {n k : ℕ} (M : Mat n k) (s : ℤ) : Mat n k :=
  Matrix.of fun i j => M i j / 2 ^ s

/-- Elementwise division by `2 ^ s` on a dynamic array. -/
def divPowD (d : DMat) (s : ℤ) : DMat := ⟨d.1, d.2.1, divPow d.2.2 s⟩

/-- Dense linear solve `cupy.linalg.solve M N`: fails on a singular
coefficient matrix, otherwise returns the unique solution
`det⁻¹ • (adjugate M * N)` of `M * X = N`. -/
def solveSq {n q : ℕ} (M : Mat n n) (N : Mat n q) : Except MErr (Mat n q) :=
  if M.det = 0 then .error .SingularMatrixError
  else .ok (M.det⁻¹ • (M.adjugate * N))

/-- Dense linear solve on dynamic arrays: the coefficient matrix must
be square with as many rows as the right-hand side. -/
def solveD (x y : DMat) : Except MErr DMat :=
  if h : x.2.1 = x.1 ∧ y.1 = x.1 then
    (solveSq (Matrix.of fun i j => x.2.2 i (Fin.cast h.1.symm j))
        (Matrix.of fun i j => y.2.2 (Fin.cast h.2.symm i) j)).map
      fun X => (⟨x.1, y.2.1, X⟩ : DMat)
  else .error (.DimensionError "solve: incompatible dimensions")

/-- The squaring loop `for _ in range(s): x = x @ x` on dynamic
arrays. -/
def sqLoopD (x : DMat) : ℕ → Except MErr DMat
  | 0 => .ok x
  | k + 1 => (matmulD x x).bind fun y => sqLoopD y k

/-- The squaring loop on a statically square matrix: `k` successive
self-multiplications. -/
def sqIter {n : ℕ} (x : Mat n n) : ℕ → Mat n n
  | 0 => x
  | k + 1 => sqIter (x * x) k

/-- Numerator-side Pade accumulator of the source:
`u = A @ (A6 @ (b13*A6 + b11*A4 + b9*A2) + b7*A6 + b5*A4 + b3*A2 + b1*E)`. -/
def padeU {n : ℕ} (A : Mat n n) : Mat n n :=
  let A2 := A * A
  let A4 := A2 * A2
  let A6 := A2 * A4
  A * (A6 * (bq 13 • A6 + bq 11 • A4 + bq 9 • A2) +
    bq 7 • A6 + bq 5 • A4 + bq 3 • A2 + bq 1 • 1)

/-- Denominator-side Pade accumulator of the source:
`v = A6 @ (b12*A6 + b10*A4 + b8*A) + b6*A6 + b4*A4 + b2*A2 + b0*E`
(the innermost term deliberately uses `A`, not `A2`). -/
def padeV {n : ℕ} (A : Mat n n) : Mat n n :=
  let A2 := A * A
  let A4 := A2 * A2
  let A6 := A2 * A4
  A6 * (bq 12 • A6 + bq 10 • A4 + bq 8 • A) +
    bq 6 • A6 + bq 4 • A4 + bq 2 • A2 + bq 0 • 1

/-- The Pade linear solve `r13 = solve(-u + v, u + v)` on a statically
square scaled matrix. -/
def padeSolve {n : ℕ} (A : Mat n n) : Except MErr (Mat n n) :=
  solveSq (-padeU A + padeV A) (padeU A + padeV A)

/-- Accumulation of the numerator polynomial of the source:
`u = A6 @ (b13*A6 + b11*A4 + b9*A2) + b7*A6 + b5*A4 + b3*A2 + b1*Em`
followed by `u = A @ u`. -/
def uAccD (A A2 A4 A6 Em : DMat) : Except MErr DMat := do
  let t0 ← bop (· + ·) (smulDM (bq 13) A6) (smulDM (bq 11) A4)
  let t1 ← bop (· + ·) t0 (smulDM (bq 9) A2)
  let t2 ← matmulD A6 t1
  let t3 ← bop (· + ·) t2 (smulDM (bq 7) A6)
  let t4 ← bop (· + ·) t3 (smulDM (bq 5) A4)
  let t5 ← bop (· + ·) t4 (smulDM (bq 3) A2)
  let u0 ← bop (· + ·) t5 (smulDM (bq 1) Em)
  matmulD A u0

/-- Accumulation of the denominator polynomial of the source:
`v = A6 @ (b12*A6 + b10*A4 + b8*A) + b6*A6 + b4*A4 + b2*A2 + b0*Em`
(the innermost term deliberately uses `A`, not `A2`). -/
def vAccD (A A2 A4 A6 Em : DMat) : Except MErr DMat := do
  let w0 ← bop (· + ·) (smulDM (bq 12) A6) (smulDM (bq 10) A4)
  let w1 ← bop (· + ·) w0 (smulDM (bq 8) A)
  let w2 ← matmulD A6 w1
  let w3 ← bop (· + ·) w2 (smulDM (bq 6) A6)
  let w4 ← bop (· + ·) w3 (smulDM (bq 4) A4)
  let w5 ← bop (· + ·) w4 (smulDM (bq 2) A2)
  bop (· + ·) w5 (smulDM (bq 0) Em)

/-- The Pade-evaluation body of `expm` (source lines from `A2 = A @ A`
to the return): matrix powers, accumulators `u` and `v`, linear solve,
`s.toNat` squarings, unshift by `E mu`. `A` is the already scaled
matrix and `s` the already chosen scale exponent. -/
def padeBody (E : ℚ → ℚ) (mu : ℚ) (s : ℤ) (A : DMat) : Except MErr DMat := do
  let A2 ← matmulD A A
  let A4 ← matmulD A2 A2
  let A6 ← matmulD A2 A4
  let Em := eyeD A.1
  let u ← uAccD A A2 A4 A6 Em
  let v ← vAccD A A2 A4 A6 Em
  let lhs ← bop (· + ·) (negD u) v
  let rhs ← bop (· + ·) u v
  let r13 ← solveD lhs rhs
  let x ← sqLoopD r13 s.toNat
  return smulDM (E mu) x

/-- Everything `expm` does after the trace shift (source lines from the
norm computation to the return): scale selection, division by `2^s`,
then `padeBody`. -/
def padePart (E : ℚ → ℚ) (mu : ℚ) (A0 : DMat) : Except MErr DMat :=
  let s : ℤ := sOf (norm1D A0)
  padeBody E mu s (divPowD A0 s)

/-- The matrix exponential `expm` of the source on a dynamic 2-D array:
empty-input early return, trace shift `A = a - eye(n)*mu` with
`mu = diag(a).sum()/n`, then `padePart`. -/
def expm (E : ℚ → ℚ) (a : DMat) : Except MErr DMat :=
  if a.1 * a.2.1 = 0 then .ok ⟨0, 0, 0⟩
  else
    let mu := diagSumD a / (a.1 : ℚ)
    (bop (· - ·) a (smulDM mu (eyeD a.1))).bind (padePart E mu)

/-- Shift scalar `mu = cupy.diag(a).sum() / n` for a square input. -/
def muD (n : ℕ) (a : Mat n n) : ℚ := diagSumD ⟨n, n, a⟩ / (n : ℚ)

end Expm

section Bridge

theorem bidx_lt {p j : ℕ} (h : j < p) : bidx p j = j := by
  unfold bidx; split <;> omega

theorem getE_lt {n k : ℕ} (M : Mat n k) {i j : ℕ} (hi : i < n) (hj : j < k) :
    getE M i j = M ⟨i, hi⟩ ⟨j, hj⟩ := dif_pos ⟨hi, hj⟩

theorem okBind {α β : Type} (a : α) (f : α → Except MErr β) :
    (Except.ok a >>= f : Except MErr β) = f a := rfl

theorem errBind {α β : Type} (e : MErr) (f : α → Except MErr β) :
    (Except.error e >>= f : Except MErr β) = .error e := rfl

theorem pureOk {α : Type} (a : α) : (pure a : Except MErr α) = .ok a := rfl

theorem okBindE {α β : Type} (a : α) (f : α → Except MErr β) :
    (Except.ok a : Except MErr α).bind f = f a := rfl

theorem errBindE {α β : Type} (e : MErr) (f : α → Except MErr β) :
    (Except.error e : Except MErr α).bind f = .error e := rfl

theorem mapOk {α β : Type} (f : α → β) (a : α) :
    (Except.ok a : Except MErr α).map f = .ok (f a) := rfl

theorem mapErr {α β : Type} (f : α → β) (e : MErr) :
    (Except.error e : Except MErr α).map f = .error e := rfl

/-- Broadcasting an elementwise operation over two arrays of the same
shape touches each entry pair once: no index magic remains. -/
theorem bop_same {n k : ℕ} (f : ℚ → ℚ → ℚ) (x y : Mat n k) :
    bop f ⟨n, k, x⟩ ⟨n, k, y⟩ =
      .ok ⟨n, k, Matrix.of fun i j => f (x i j) (y i j)⟩ := by
  have hx : ∀ (M : Mat n k) (i : Fin n) (j : Fin k),
      getE M (bidx n i.1) (bidx k j.1) = M i j := by
    intro M i j
    rw [bidx_lt i.2, bidx_lt j.2, getE_lt M i.2 j.2]
  unfold bop
  simp [bdim, hx]

theorem bop_add_sq {n k : ℕ} (x y : Mat n k) :
    bop (· + ·) ⟨n, k, x⟩ ⟨n, k, y⟩ = .ok ⟨n, k, x + y⟩ :=
  (bop_same _ x y).trans rfl

theorem bop_sub_sq {n k : ℕ} (x y : Mat n k) :
    bop (· - ·) ⟨n, k, x⟩ ⟨n, k, y⟩ = .ok ⟨n, k, x - y⟩ :=
  (bop_same _ x y).trans rfl

theorem matmulD_rect {n k q : ℕ} (x : Mat n k) (y : Mat k q) :
    matmulD ⟨n, k, x⟩ ⟨k, q, y⟩ = .ok ⟨n, q, x * y⟩ := by
  unfold matmulD
  rw [dif_pos rfl]
  have : (Matrix.of fun (i : Fin n) (j : Fin q) =>
      ∑ l : Fin k, x i l * y (Fin.cast rfl l) j) = x * y := by
    funext i j
    rw [Matrix.mul_apply]
    rfl
  rw [this]

theorem solveD_sq {n q : ℕ} (M : Mat n n) (N : Mat n q) :
    solveD ⟨n, n, M⟩ ⟨n, q, N⟩ = (solveSq M N).map fun X => (⟨n, q, X⟩ : DMat) := by
  unfold solveD
  rw [dif_pos ⟨rfl, rfl⟩]
  have hM : (Matrix.of fun (i : Fin n) (j : Fin n) => M i (Fin.cast rfl j)) = M := rfl
  have hN : (Matrix.of fun (i : Fin n) (j : Fin q) => N (Fin.cast rfl i) j) = N := rfl
  rw [hM, hN]

theorem sqLoopD_sq {n : ℕ} (k : ℕ) (x : Mat n n) :
    sqLoopD ⟨n, n, x⟩ k = .ok ⟨n, n, sqIter x k⟩ := by
  induction k generalizing x with
  | zero => rfl
  | succ k ih =>
    unfold sqLoopD sqIter
    rw [matmulD_rect]
    exact ih (x * x)

/-- Pushing the squaring loop and the unshift through the result of the
linear solve. -/
theorem solve_then {n : ℕ} (D N : Mat n n) (t : ℕ) (c : ℚ) :
    ((solveSq D N).map (fun X => (⟨n, n, X⟩ : DMat)) >>= fun r13 =>
      sqLoopD r13 t >>= fun x => pure (⟨x.1, x.2.1, c • x.2.2⟩ : DMat)) =
    (solveSq D N).map fun r => (⟨n, n, c • sqIter r t⟩ : DMat) := by
  cases h : solveSq D N with
  | error e => rfl
  | ok r => simp only [mapOk, okBind, sqLoopD_sq, pureOk]

/-- Master bridge: on a square shifted matrix the dynamic pipeline
after the trace shift is exactly scale selection, elementwise division
by `2^s`, the Pade linear solve, `s.toNat` squarings and the unshift
by `E mu`. -/
theorem uAccD_sq {n : ℕ} (A B2 B4 B6 Em : Mat n n) :
    uAccD ⟨n, n, A⟩ ⟨n, n, B2⟩ ⟨n, n, B4⟩ ⟨n, n, B6⟩ ⟨n, n, Em⟩ =
      .ok ⟨n, n, A * (B6 * (bq 13 • B6 + bq 11 • B4 + bq 9 • B2) +
        bq 7 • B6 + bq 5 • B4 + bq 3 • B2 + bq 1 • Em)⟩ := by
  unfold uAccD
  simp only [smulDM, matmulD_rect, okBind, bop_add_sq]

theorem vAccD_sq {n : ℕ} (A B2 B4 B6 Em : Mat n n) :
    vAccD ⟨n, n, A⟩ ⟨n, n, B2⟩ ⟨n, n, B4⟩ ⟨n, n, B6⟩ ⟨n, n, Em⟩ =
      .ok ⟨n, n, B6 * (bq 12 • B6 + bq 10 • B4 + bq 8 • A) +
        bq 6 • B6 + bq 4 • B4 + bq 2 • B2 + bq 0 • Em⟩ := by
  unfold vAccD
  simp only [smulDM, matmulD_rect, okBind, bop_add_sq]

theorem padeBody_sq {n : ℕ} (E : ℚ → ℚ) (mu : ℚ) (s : ℤ) (A : Mat n n) :
    padeBody E mu s ⟨n, n, A⟩ =
      (padeSolve A).map fun r => (⟨n, n, E mu • sqIter r s.toNat⟩ : DMat) := by
  unfold padeBody
  simp only [eyeD, matmulD_rect, okBind, uAccD_sq, vAccD_sq, negD, smulDM,
    bop_add_sq, solveD_sq]
  simp only [solve_then]
  simp only [padeSolve, padeU, padeV]

theorem padePart_sq {n : ℕ} (E : ℚ → ℚ) (mu : ℚ) (A0 : Mat n n) :
    padePart E mu ⟨n, n, A0⟩ =
      (padeSolve (divPow A0 (sOf (norm1 A0)))).map
        fun r => (⟨n, n, E mu • sqIter r (sOf (norm1 A0)).toNat⟩ : DMat) := by
  unfold padePart
  simp only [norm1D, divPowD]
  exact padeBody_sq E mu (sOf (norm1 A0)) (divPow A0 (sOf (norm1 A0)))

end Bridge

section Helpers

theorem getE_zero {n k : ℕ} (i j : ℕ) : getE (0 : Mat n k) i j = 0 := by
  unfold getE; split <;> simp

theorem foldr_max_zeros : ∀ l : List ℚ, (∀ x ∈ l, x = 0) → l.foldr max 0 = 0
  | [], _ => rfl
  | a :: l, h => by
    have ha := h a (List.mem_cons_self a l)
    have hl := foldr_max_zeros l (fun x hx => h x (List.mem_cons_of_mem a hx))
    simp [ha, hl]

theorem norm1_zero {n k : ℕ} : norm1 (0 : Mat n k) = 0 := by
  apply foldr_max_zeros
  intro x hx
  rcases List.mem_map.1 hx with ⟨j, _, rfl⟩
  simp [colAbs]

theorem divPow_zero {n k : ℕ} (s : ℤ) : divPow (0 : Mat n k) s = 0 := by
  funext i j
  simp [divPow]

theorem th13_pos : (0 : ℚ) < th13 := by norm_num [th13]

theorem sOf_zero : sOf 0 = 1 := by norm_num [sOf, th13]

theorem sOf_ge_one (q : ℚ) : 1 ≤ sOf q := by
  unfold sOf
  split
  · have h1 : (1 : ℚ) < q / th13 := (one_lt_div th13_pos).2 (by assumption)
    have h0 : (0 : ℤ) ≤ Int.clog 2 (q / th13) := by
      have := Int.clog_mono_right (b := 2) one_pos h1.le
      rwa [Int.clog_one_right] at this
    omega
  · exact le_refl 1

theorem diagSumD_sq {n : ℕ} (a : Mat n n) : diagSumD ⟨n, n, a⟩ = Matrix.trace a := by
  show ∑ i : Fin (min n n), getE a i.1 i.1 = Matrix.trace a
  rw [min_self, Matrix.trace]
  apply Finset.sum_congr rfl
  intro i _
  rw [getE_lt a i.2 i.2]
  rfl

theorem muD_zero {n : ℕ} : muD n (0 : Mat n n) = 0 := by
  unfold muD
  rw [diagSumD_sq, Matrix.trace_zero, zero_div]

/-- On a non-empty square input, `expm` is the trace shift followed by
`padePart`. -/
theorem expm_sq {n : ℕ} (E : ℚ → ℚ) (a : Mat n n) (hn : 0 < n) :
    expm E ⟨n, n, a⟩ = padePart E (muD n a) ⟨n, n, a - muD n a • 1⟩ := by
  unfold expm
  rw [if_neg (Nat.mul_ne_zero hn.ne' hn.ne')]
  simp only [smulDM, eyeD, bop_sub_sq, okBind]
  rfl

theorem padeU_zero {n : ℕ} : padeU (0 : Mat n n) = 0 := by
  simp [padeU]

theorem padeV_zero {n : ℕ} : padeV (0 : Mat n n) = bq 0 • 1 := by
  simp [padeV]

theorem bq0_ne_zero : (bq 0 : ℚ) ≠ 0 := by norm_num [bq, b]

/-- On the zero matrix the Pade linear system is `b₀·I · X = b₀·I`,
whose solution is the identity. -/
theorem padeSolve_zero {n : ℕ} (hn : 0 < n) : padeSolve (0 : Mat n n) = .ok 1 := by
  have hdet : (bq 0 • (1 : Mat n n)).det = bq 0 ^ n := by
    rw [Matrix.det_smul, Matrix.det_one, mul_one, Fintype.card_fin]
  unfold padeSolve solveSq
  rw [padeU_zero, padeV_zero, neg_zero, zero_add, hdet]
  rw [if_neg (pow_ne_zero n bq0_ne_zero)]
  have hadj : (bq 0 • (1 : Mat n n)).adjugate = bq 0 ^ (n - 1) • 1 := by
    rw [Matrix.adjugate_smul, Matrix.adjugate_one, Fintype.card_fin]
  rw [hadj, smul_mul_assoc, one_mul, smul_smul, smul_smul]
  rw [show (bq 0 ^ n)⁻¹ * bq 0 ^ (n - 1) * bq 0 = 1 by
    rw [mul_assoc, ← pow_succ, Nat.sub_add_cancel hn,
      inv_mul_cancel₀ (pow_ne_zero n bq0_ne_zero)]]
  rw [one_smul]

/-- On the square zero matrix the whole post-shift pipeline returns the
identity (provided the modelled `exp` sends `0` to `1`, as `math.exp`
does). -/
theorem padePart_zero {n : ℕ} (E : ℚ → ℚ) (hn : 0 < n) (hE : E 0 = 1) :
    padePart E 0 ⟨n, n, (0 : Mat n n)⟩ = .ok ⟨n, n, 1⟩ := by
  rw [padePart_sq, norm1_zero, sOf_zero, divPow_zero, padeSolve_zero hn, mapOk]
  simp [sqIter, hE]

end Helpers

section Claims

/-- C1: for every square matrix reaching the Pade evaluator after
scaling, the numerator accumulator is
`u = A*(A^6*(b13 A^6 + b11 A^4 + b9 A^2) + b7 A^6 + b5 A^4 + b3 A^2 + b1 I)`,
the denominator accumulator is
`v = A^6*(b12 A^6 + b10 A^4 + b8 A) + b6 A^6 + b4 A^4 + b2 A^2 + b0 I`
(the innermost denominator term uses the first power `A`, not `A^2`),
and the approximant solves the single dense linear system
`(-u + v) * R13 = u + v`. -/
theorem claim_C1 {n : ℕ} (A : Mat n n) :
    padeU A = A * (A ^ 6 * (bq 13 • A ^ 6 + bq 11 • A ^ 4 + bq 9 • A ^ 2) +
      bq 7 • A ^ 6 + bq 5 • A ^ 4 + bq 3 • A ^ 2 + bq 1 • 1) ∧
    padeV A = A ^ 6 * (bq 12 • A ^ 6 + bq 10 • A ^ 4 + bq 8 • A) +
      bq 6 • A ^ 6 + bq 4 • A ^ 4 + bq 2 • A ^ 2 + bq 0 • 1 ∧
    ∀ r, padeSolve A = .ok r → (-padeU A + padeV A) * r = padeU A + padeV A := by
  have h2 : A * A = A ^ 2 := (pow_two A).symm
  have h4 : A ^ 2 * A ^ 2 = A ^ 4 := by rw [← pow_add]
  have h6 : A ^ 2 * A ^ 4 = A ^ 6 := by rw [← pow_add]
  refine ⟨?_, ?_, ?_⟩
  · unfold padeU
    dsimp only
    rw [h2, h4, h6]
  · unfold padeV
    dsimp only
    rw [h2, h4, h6]
  · intro r hr
    unfold padeSolve solveSq at hr
    split at hr
    · cases hr
    · rename_i hdet
      injection hr with hr
      subst hr
      rw [Matrix.mul_smul, ← Matrix.mul_assoc, Matrix.mul_adjugate,
        smul_mul_assoc, one_mul, smul_smul, inv_mul_cancel₀ hdet, one_smul]

/-- C1 witness: instance at the 1×1 zero matrix, the solve hypothesis
discharged concretely (`R13 = I` there). -/
theorem claim_C1_witness :
    (-padeU (0 : Mat 1 1) + padeV 0) * 1 = padeU 0 + padeV 0 :=
  (claim_C1 (0 : Mat 1 1)).2.2 1 (padeSolve_zero one_pos)

/-- C2: for a non-empty square input the scale exponent is chosen from
the shifted matrix's 1-norm: `s = ceil(log2(nrm / th13)) + 1` when
`nrm > th13 = 5.37` (the sandwich `th13*2^(s-2) < nrm <= th13*2^(s-1)`
identifies `s - 1` as the log ceiling), and `s = 1` unconditionally
otherwise — never `s = 0`; the shifted matrix is then divided
elementwise by `2^s` before the Pade evaluation. -/
theorem claim_C2 {n : ℕ} (E : ℚ → ℚ) (mu : ℚ) (A' : Mat n n) (_hn : 0 < n) :
    th13 = 537 / 100 ∧
    1 ≤ sOf (norm1 A') ∧
    (th13 < norm1 A' →
      sOf (norm1 A') = Int.clog 2 (norm1 A' / th13) + 1 ∧
      th13 * 2 ^ (sOf (norm1 A') - 2) < norm1 A' ∧
      norm1 A' ≤ th13 * 2 ^ (sOf (norm1 A') - 1)) ∧
    (¬ th13 < norm1 A' → sOf (norm1 A') = 1) ∧
    divPowD ⟨n, n, A'⟩ (sOf (norm1 A')) =
      ⟨n, n, Matrix.of fun i j => A' i j / 2 ^ sOf (norm1 A')⟩ ∧
    padePart E mu ⟨n, n, A'⟩ =
      padeBody E mu (sOf (norm1 A')) (divPowD ⟨n, n, A'⟩ (sOf (norm1 A'))) := by
  refine ⟨rfl, sOf_ge_one _, ?_, ?_, rfl, rfl⟩
  · intro h
    have hs : sOf (norm1 A') = Int.clog 2 (norm1 A' / th13) + 1 := by
      unfold sOf; rw [if_pos h]
    have hx : (1 : ℚ) < norm1 A' / th13 := (one_lt_div th13_pos).2 h
    have hxpos : (0 : ℚ) < norm1 A' / th13 := lt_trans one_pos hx
    have hcast : ((2 : ℕ) : ℚ) = 2 := by norm_num
    have hup : norm1 A' / th13 ≤ 2 ^ Int.clog 2 (norm1 A' / th13) := by
      have := Int.self_le_zpow_clog (b := 2) (by norm_num) (norm1 A' / th13)
      rwa [hcast] at this
    have hlow : (2 : ℚ) ^ (Int.clog 2 (norm1 A' / th13) - 1) < norm1 A' / th13 := by
      have := Int.zpow_pred_clog_lt_self (b := 2) (by norm_num) hxpos
      rwa [hcast] at this
    have hmul : th13 * (norm1 A' / th13) = norm1 A' := by
      rw [mul_comm, div_mul_cancel₀ _ (ne_of_gt th13_pos)]
    refine ⟨hs, ?_, ?_⟩
    · rw [hs, show Int.clog 2 (norm1 A' / th13) + 1 - 2 =
        Int.clog 2 (norm1 A' / th13) - 1 by ring]
      calc th13 * 2 ^ (Int.clog 2 (norm1 A' / th13) - 1)
          < th13 * (norm1 A' / th13) := by
            exact mul_lt_mul_of_pos_left hlow th13_pos
        _ = norm1 A' := hmul
    · rw [hs, show Int.clog 2 (norm1 A' / th13) + 1 - 1 =
        Int.clog 2 (norm1 A' / th13) by ring]
      calc norm1 A' = th13 * (norm1 A' / th13) := hmul.symm
        _ ≤ th13 * 2 ^ Int.clog 2 (norm1 A' / th13) :=
            mul_le_mul_of_nonneg_left hup (le_of_lt th13_pos)
  · intro h
    unfold sOf; rw [if_neg h]

/-- C2 witness: instance at the 1×1 zero matrix (whose shifted 1-norm
is below the threshold, so the unconditional branch applies). -/
theorem claim_C2_witness :
    th13 = 537 / 100 ∧
    1 ≤ sOf (norm1 (0 : Mat 1 1)) ∧
    (th13 < norm1 (0 : Mat 1 1) →
      sOf (norm1 (0 : Mat 1 1)) = Int.clog 2 (norm1 (0 : Mat 1 1) / th13) + 1 ∧
      th13 * 2 ^ (sOf (norm1 (0 : Mat 1 1)) - 2) < norm1 (0 : Mat 1 1) ∧
      norm1 (0 : Mat 1 1) ≤ th13 * 2 ^ (sOf (norm1 (0 : Mat 1 1)) - 1)) ∧
    (¬ th13 < norm1 (0 : Mat 1 1) → sOf (norm1 (0 : Mat 1 1)) = 1) ∧
    divPowD ⟨1, 1, (0 : Mat 1 1)⟩ (sOf (norm1 (0 : Mat 1 1))) =
      ⟨1, 1, Matrix.of fun i j =>
        (0 : Mat 1 1) i j / 2 ^ sOf (norm1 (0 : Mat 1 1))⟩ ∧
    padePart (fun q => q) 0 ⟨1, 1, (0 : Mat 1 1)⟩ =
      padeBody (fun q => q) 0 (sOf (norm1 (0 : Mat 1 1)))
        (divPowD ⟨1, 1, (0 : Mat 1 1)⟩ (sOf (norm1 (0 : Mat 1 1)))) :=
  claim_C2 (fun q => q) 0 (0 : Mat 1 1) one_pos

/-- C3: for every n×n input with `n > 0`, the shift scalar is
`mu = trace(a)/n` (the mean of the diagonal) and the matrix handed to
the scale selector is the shifted matrix `a - mu*I`. -/
theorem claim_C3 {n : ℕ} (E : ℚ → ℚ) (a : Mat n n) (hn : 0 < n) :
    muD n a = Matrix.trace a / (n : ℚ) ∧
    expm E ⟨n, n, a⟩ = padePart E (muD n a) ⟨n, n, a - muD n a • 1⟩ :=
  ⟨by unfold muD; rw [diagSumD_sq], expm_sq E a hn⟩

/-- C3 witness: instance at a concrete 2×2 matrix. -/
theorem claim_C3_witness :
    muD 2 !![(1 : ℚ), 2; 3, 4] = Matrix.trace !![(1 : ℚ), 2; 3, 4] / (2 : ℚ) ∧
    expm (fun q => q) ⟨2, 2, !![(1 : ℚ), 2; 3, 4]⟩ =
      padePart (fun q => q) (muD 2 !![(1 : ℚ), 2; 3, 4])
        ⟨2, 2, !![(1 : ℚ), 2; 3, 4] - muD 2 !![(1 : ℚ), 2; 3, 4] • 1⟩ :=
  claim_C3 (fun q => q) !![(1 : ℚ), 2; 3, 4] (by norm_num)

/-- C4: for every non-empty square input on which the Pade solve of
the scaled shifted matrix succeeds with `r`, the returned matrix is
exactly `r` self-multiplied `s` times (`s.toNat = s` since `s ≥ 1`),
then multiplied elementwise by the scalar `E mu` — the modelled
`exp(mu)` with `mu` the trace shift of the same call. -/
theorem claim_C4 {n : ℕ} (E : ℚ → ℚ) (a : Mat n n) (r : Mat n n) (hn : 0 < n)
    (hr : padeSolve (divPow (a - muD n a • 1)
      (sOf (norm1 (a - muD n a • 1)))) = .ok r) :
    expm E ⟨n, n, a⟩ =
      .ok ⟨n, n, E (muD n a) • sqIter r (sOf (norm1 (a - muD n a • 1))).toNat⟩ ∧
    ((sOf (norm1 (a - muD n a • 1))).toNat : ℤ) =
      sOf (norm1 (a - muD n a • 1)) := by
  constructor
  · rw [expm_sq E a hn, padePart_sq, hr, mapOk]
  · exact Int.toNat_of_nonneg
      (by have := sOf_ge_one (norm1 (a - muD n a • 1)); omega)

/-- C4 witness: instance at the 1×1 zero matrix with the solve
hypothesis discharged concretely. -/
theorem claim_C4_witness :
    expm (fun _ => 1) ⟨1, 1, (0 : Mat 1 1)⟩ =
      .ok ⟨1, 1, (1 : ℚ) • sqIter (1 : Mat 1 1)
        (sOf (norm1 ((0 : Mat 1 1) - muD 1 (0 : Mat 1 1) • 1))).toNat⟩ ∧
    ((sOf (norm1 ((0 : Mat 1 1) - muD 1 (0 : Mat 1 1) • 1))).toNat : ℤ) =
      sOf (norm1 ((0 : Mat 1 1) - muD 1 (0 : Mat 1 1) • 1)) := by
  have hz : (0 : Mat 1 1) - muD 1 (0 : Mat 1 1) • 1 = 0 := by
    rw [muD_zero]; simp
  have hr : padeSolve (divPow ((0 : Mat 1 1) - muD 1 (0 : Mat 1 1) • 1)
      (sOf (norm1 ((0 : Mat 1 1) - muD 1 (0 : Mat 1 1) • 1)))) = .ok 1 := by
    rw [hz, divPow_zero]
    exact padeSolve_zero one_pos
  exact claim_C4 (fun _ => 1) (0 : Mat 1 1) 1 one_pos hr

/-- C6: on the empty 0×0 input, `expm` returns a 0×0 result immediately
and without error; no later stage runs. -/
theorem claim_C6 (E : ℚ → ℚ) (M : Mat 0 0) :
    expm E ⟨0, 0, M⟩ = .ok ⟨0, 0, 0⟩ := rfl

/-- C7: for every `n ≥ 1`, `expm` on the n×n zero matrix returns the
n×n identity matrix (using that the modelled `exp` sends `0` to `1`, as
`math.exp` does). -/
theorem claim_C7 {n : ℕ} (E : ℚ → ℚ) (hn : 0 < n) (hE : E 0 = 1) :
    expm E ⟨n, n, (0 : Mat n n)⟩ = .ok ⟨n, n, 1⟩ := by
  rw [expm_sq E 0 hn, muD_zero]
  rw [show (0 : Mat n n) - (0 : ℚ) • 1 = 0 by simp]
  exact padePart_zero E hn hE

/-- C7 witness: the 2×2 zero matrix. -/
theorem claim_C7_witness :
    expm (fun _ => (1 : ℚ)) ⟨2, 2, (0 : Mat 2 2)⟩ = .ok ⟨2, 2, 1⟩ :=
  claim_C7 (fun _ => 1) (by norm_num) rfl

/-- Broadcasting fails when the second axes differ and neither is 1
(while the first axes agree). -/
theorem bop_mismatch {n k : ℕ} (f : ℚ → ℚ → ℚ) (M : Mat n k) (N : Mat n n)
    (h1 : k ≠ n) (h2 : k ≠ 1) (h3 : n ≠ 1) :
    bop f ⟨n, k, M⟩ ⟨n, n, N⟩ =
      .error (.DimensionError "operands could not be broadcast together") := by
  unfold bop
  simp [bdim, h1, h2, h3]

/-- C5 amended: `expm` performs no up-front shape validation. A
non-square 2-D input of shape (n,k) with `n,k ≥ 1`, `k ∉ {1,n}` and
`n ≠ 1` fails only at the shift subtraction `a - eye(n)*mu`, with a
broadcasting dimension error, after the shift scalar `mu` has already
been computed; and a (n,1) input is not rejected at all (see the
counterexample). -/
theorem claim_C5_amended {n k : ℕ} (E : ℚ → ℚ) (M : Mat n k)
    (h0 : 0 < n) (h1 : 0 < k) (hkn : k ≠ n) (hk1 : k ≠ 1) (hn1 : n ≠ 1) :
    expm E ⟨n, k, M⟩ =
      .error (.DimensionError "operands could not be broadcast together") := by
  unfold expm
  rw [if_neg (Nat.mul_ne_zero h0.ne' h1.ne')]
  simp only [smulDM, eyeD]
  rw [bop_mismatch _ _ _ hkn hk1 hn1, errBindE]

/-- C5 amended witness: a 2×3 input fails with the broadcasting
dimension error. -/
theorem claim_C5_amended_witness :
    expm (fun q => q) ⟨2, 3, (0 : Mat 2 3)⟩ =
      .error (.DimensionError "operands could not be broadcast together") :=
  claim_C5_amended (fun q => q) 0 (by norm_num) (by norm_num) (by norm_num)
    (by norm_num) (by norm_num)

/-- C5 counterexample: the non-square 3×1 zero input is not rejected at
all — the shift subtraction broadcasts it against the 3×3 `eye(n)*mu`
and the call runs every later stage, returning a 3×3 identity; no
`DimensionError` is raised, refuting the claim that every non-2-D or
non-square input raises before any computation. -/
theorem claim_C5_counterexample :
    (3 : ℕ) ≠ 1 ∧
    expm (fun _ => 1) ⟨3, 1, (0 : Mat 3 1)⟩ = .ok ⟨3, 3, 1⟩ := by
  refine ⟨by norm_num, ?_⟩
  unfold expm
  rw [if_neg (by norm_num)]
  have hds : diagSumD ⟨3, 1, (0 : Mat 3 1)⟩ = 0 := by
    unfold diagSumD
    simp [getE_zero]
  simp only [hds, zero_div, smulDM, eyeD, zero_smul]
  have hb : bop (· - ·) (⟨3, 1, (0 : Mat 3 1)⟩ : DMat) (⟨3, 3, (0 : Mat 3 3)⟩ : DMat)
      = .ok ⟨3, 3, (0 : Mat 3 3)⟩ := by
    unfold bop
    simp [bdim, getE_zero]
    rfl
  rw [hb, okBindE]
  exact padePart_zero (fun _ => 1) (by norm_num) rfl

theorem divIdx_flat {n m : ℕ} (i : Fin n) (l : Fin m) :
    divIdx (flatIdx i l) = i := by
  apply Fin.ext
  show (i.1 * m + l.1) / m = i.1
  rw [Nat.add_comm, Nat.add_mul_div_right _ _ l.pos, Nat.div_eq_of_lt l.2,
    Nat.zero_add]

theorem modIdx_flat {n m : ℕ} (i : Fin n) (l : Fin m) :
    modIdx (flatIdx i l) = l := by
  apply Fin.ext
  show (i.1 * m + l.1) % m = l.1
  rw [Nat.add_comm, Nat.add_mul_mod_self_right, Nat.mod_eq_of_lt l.2]

/-- C8: on 2-D inputs of shapes (n,k) and (m,k), `khatri_rao` returns
the (n*m, k) matrix in which row `i*m + l` of column `j` holds
`a i j * c l j`: each output column is the flattened row-major outer
product of the corresponding input columns. -/
theorem claim_C8 {n m k : ℕ} (a : Mat n k) (c : Mat m k) :
    khatri_rao (.twoD ⟨n, k, a⟩) (.twoD ⟨m, k, c⟩) = .ok ⟨n * m, k, krMat a c⟩ ∧
    ∀ (i : Fin n) (l : Fin m) (j : Fin k),
      krMat a c (flatIdx i l) j = a i j * c l j := by
  constructor
  · simp only [khatri_rao]
    rw [dif_pos trivial]
    rfl
  · intro i l j
    show krCube a c (divIdx (flatIdx i l)) (modIdx (flatIdx i l)) j = a i j * c l j
    rw [divIdx_flat, modIdx_flat]
    rfl

/-- C9 amended: `khatri_rao` raises a `DimensionError` whenever its two
2-D inputs have differing column counts — but its message is the
source's "The number of columns for both arrays should be equal.", not
the message quoted in the claim — and (spec-modelled `_assert_2d`) a
`DimensionError` when either input is not 2-D; in those cases no result
is produced. -/
theorem claim_C9_amended :
    (∀ x y : DMat, x.2.1 ≠ y.2.1 →
      khatri_rao (.twoD x) (.twoD y) = .error (.DimensionError colMismatchMsg)) ∧
    (∀ (d : ℕ) (y : PyArr),
      khatri_rao (.otherD d) y = .error (.DimensionError assert2dMsg)) ∧
    (∀ (x : DMat) (d : ℕ),
      khatri_rao (.twoD x) (.otherD d) = .error (.DimensionError assert2dMsg)) := by
  refine ⟨?_, fun d y => rfl, ?_⟩
  · rintro ⟨n, k, a⟩ ⟨m, q, c⟩ h
    simp only [khatri_rao]
    rw [dif_neg h]
  · rintro ⟨n, k, a⟩ d
    rfl

/-- C9 amended witness: concrete 2×2 and 2×3 inputs. -/
theorem claim_C9_witness :
    khatri_rao (.twoD ⟨2, 2, (0 : Mat 2 2)⟩) (.twoD ⟨2, 3, (0 : Mat 2 3)⟩) =
      .error (.DimensionError colMismatchMsg) :=
  claim_C9_amended.1 ⟨2, 2, 0⟩ ⟨2, 3, 0⟩ (by norm_num)

/-- C9 counterexample: on a concrete column-count mismatch the raised
error carries the source's message "The number of columns for both
arrays should be equal.", not the claim's "number of columns must be
equal". -/
theorem claim_C9_counterexample :
    khatri_rao (.twoD ⟨1, 1, (0 : Mat 1 1)⟩) (.twoD ⟨1, 2, (0 : Mat 1 2)⟩) =
      .error (.DimensionError colMismatchMsg) ∧
    khatri_rao (.twoD ⟨1, 1, (0 : Mat 1 1)⟩) (.twoD ⟨1, 2, (0 : Mat 1 2)⟩) ≠
      .error (.DimensionError "number of columns must be equal") ∧
    colMismatchMsg ≠ "number of columns must be equal" := by
  refine ⟨rfl, ?_, by decide⟩
  intro h
  rw [show khatri_rao (.twoD ⟨1, 1, (0 : Mat 1 1)⟩) (.twoD ⟨1, 2, (0 : Mat 1 2)⟩) =
      .error (.DimensionError colMismatchMsg) from rfl] at h
  injection h with h1
  injection h1 with h2
  exact absurd h2 (by decide)

section FrameModel

/-- Object identity for the frame claim: the caller's input buffer, or
a fresh buffer allocated at one of the numbered allocation sites of the
call. -/
inductive Obj where
  | input : Obj
  | fresh : ℕ → Obj
deriving DecidableEq

/-- An array value tagged with the identity of the buffer holding
it. -/
structure RArr where
  oid : Obj
  val : DMat

/-- Squaring loop with buffer identities: each `x @ x` allocates a
fresh buffer (site 10) and rebinds `x`; nothing is written in place. -/
def sqLoopR (x : RArr) : ℕ → Except MErr RArr
  | 0 => .ok x
  | k + 1 => (matmulD x.val x.val).bind fun y => sqLoopR ⟨.fresh 10, y⟩ k

/-- `expm` with buffer identities: every array-producing operation
yields a fresh buffer; the two in-place updates of the source
(`A /= 2**s`, on the buffer produced by the shift subtraction, and
`x *= math.exp(mu)`, on the final squaring result) keep their buffer's
identity and are recorded in the returned write log. -/
def expmR (E : ℚ → ℚ) (a : RArr) : Except MErr (RArr × List Obj) :=
  if a.val.1 * a.val.2.1 = 0 then .ok (⟨.fresh 0, ⟨0, 0, 0⟩⟩, [])
  else
    let mu := diagSumD a.val / (a.val.1 : ℚ)
    let eyeMu : RArr := ⟨.fresh 1, smulDM mu (eyeD a.val.1)⟩
    (bop (· - ·) a.val eyeMu.val).bind fun A0v =>
    let A0 : RArr := ⟨.fresh 2, A0v⟩
    let s : ℤ := sOf (norm1D A0.val)
    let A : RArr := ⟨A0.oid, divPowD A0.val s⟩
    (matmulD A.val A.val).bind fun A2v =>
    let A2 : RArr := ⟨.fresh 3, A2v⟩
    (matmulD A2.val A2.val).bind fun A4v =>
    let A4 : RArr := ⟨.fresh 4, A4v⟩
    (matmulD A2.val A4.val).bind fun A6v =>
    let A6 : RArr := ⟨.fresh 5, A6v⟩
    let Em : RArr := ⟨.fresh 6, eyeD A.val.1⟩
    (uAccD A.val A2.val A4.val A6.val Em.val).bind fun uv =>
    let u : RArr := ⟨.fresh 7, uv⟩
    (vAccD A.val A2.val A4.val A6.val Em.val).bind fun vv =>
    let v : RArr := ⟨.fresh 8, vv⟩
    (bop (· + ·) (negD u.val) v.val).bind fun lhsv =>
    (bop (· + ·) u.val v.val).bind fun rhsv =>
    (solveD lhsv rhsv).bind fun r13v =>
    let r13 : RArr := ⟨.fresh 9, r13v⟩
    (sqLoopR r13 s.toNat).bind fun x =>
    let xF : RArr := ⟨x.oid, smulDM (E mu) x.val⟩
    .ok (xF, [A.oid, xF.oid])

theorem bindOk {α β : Type} {e : Except MErr α} {f : α → Except MErr β} {z : β}
    (h : e.bind f = .ok z) : ∃ a, e = .ok a ∧ f a = .ok z := by
  cases e with
  | error err =>
    rw [errBindE] at h
    exact Except.noConfusion h
  | ok a => exact ⟨a, rfl, by rwa [okBindE] at h⟩

theorem sqLoopR_oid : ∀ (k : ℕ) (x res : RArr),
    sqLoopR x k = .ok res → res.oid = x.oid ∨ res.oid = .fresh 10 := by
  intro k
  induction k with
  | zero =>
    intro x res h
    injection h with h
    subst h
    exact Or.inl rfl
  | succ k ih =>
    intro x res h
    unfold sqLoopR at h
    obtain ⟨y, _, h⟩ := bindOk h
    rcases ih _ res h with h1 | h1
    · exact Or.inr h1
    · exact Or.inr h1

end FrameModel

/-- C10: `expm` never mutates its input. In the identity-instrumented
model, every buffer written in place during a completed run (the
division by `2^s` and the final multiplication by `exp(mu)`) is a
freshly allocated intermediate — the caller's buffer is never in the
write log, so the input array holds the same values after the call. -/
theorem claim_C10 (E : ℚ → ℚ) (d : DMat) (r : RArr) (w : List Obj)
    (h : expmR E ⟨.input, d⟩ = .ok (r, w)) :
    ∀ o ∈ w, o ≠ Obj.input := by
  unfold expmR at h
  split at h
  · injection h with h
    injection h with h1 h2
    subst h2
    intro o ho
    exact absurd ho (List.not_mem_nil o)
  · dsimp only at h
    obtain ⟨A0v, _, h⟩ := bindOk h
    obtain ⟨A2v, _, h⟩ := bindOk h
    obtain ⟨A4v, _, h⟩ := bindOk h
    obtain ⟨A6v, _, h⟩ := bindOk h
    obtain ⟨uv, _, h⟩ := bindOk h
    obtain ⟨vv, _, h⟩ := bindOk h
    obtain ⟨lhsv, _, h⟩ := bindOk h
    obtain ⟨rhsv, _, h⟩ := bindOk h
    obtain ⟨r13v, _, h⟩ := bindOk h
    obtain ⟨x, hx, h⟩ := bindOk h
    have hxo : x.oid = Obj.fresh 9 ∨ x.oid = Obj.fresh 10 := sqLoopR_oid _ _ _ hx
    injection h with h
    injection h with h1 h2
    subst h2
    intro o ho
    rcases List.mem_cons.1 ho with rfl | ho
    · decide
    rcases List.mem_cons.1 ho with rfl | ho
    · rcases hxo with h9 | h9 <;> rw [h9] <;> decide
    · exact absurd ho (List.not_mem_nil o)

/-- C10 witness: a completed concrete run of the instrumented model
(the empty input, which returns with an empty write log), instantiating
the theorem at it. -/
theorem claim_C10_witness :
    expmR (fun q => q) ⟨Obj.input, ⟨0, 0, 0⟩⟩ =
      .ok (⟨Obj.fresh 0, ⟨0, 0, 0⟩⟩, []) ∧
    ∀ o ∈ ([] : List Obj), o ≠ Obj.input :=
  ⟨rfl, claim_C10 (fun q => q) ⟨0, 0, 0⟩ ⟨Obj.fresh 0, ⟨0, 0, 0⟩⟩ [] rfl⟩

end Claims

end Matfuncs
